import Mathlib

/-!
Verification of the integration backbone of a modular-monolith application:
the per-module migration registry and runner, the in-process domain event
bus, the transaction coordinator and the pooled connection primitive.

The definitions below are shallow embeddings of the TypeScript sources:
`packages/db/src/migration-runner.ts`, `packages/db/src/transaction.ts`,
`packages/db/src/connection.ts` and `packages/shared/src/domain-event.ts`.
Asynchronous database effects are made explicit: the `_migrations` ledger
table becomes a list-valued state component, SQL success or failure becomes
a boolean or `Except`-valued oracle supplied by the environment, and the
sequential `await` structure of the source becomes ordinary sequential
recursion.
-/

namespace ModMono

/-- A migration unit owned by one domain (interface `Migration` in
`migration-runner.ts`): a name plus `up` and `down` SQL statement batches. -/
structure Migration where
  name : String
  up : String
  down : String
  deriving DecidableEq, Repr

/-- A domain's registration entry (interface `DomainMigrations`): the domain
name and its migrations in declared order. -/
structure DomainMigrations where
  domain : String
  migrations : List Migration
  deriving DecidableEq, Repr

/-- The natural key of a migration: the `(domain, name)` pair. -/
abbrev MKey := String × String

/-- `MigrationRunner.registerDomain` pushes the entry onto the internal
list; it performs no uniqueness or duplicate check. -/
def registerDomain (reg : List DomainMigrations) (dm : DomainMigrations) :
    List DomainMigrations :=
  reg ++ [dm]

/-- The order in which `runAll` visits migrations: registered domains in
registration order, and within each domain the declared order; each visit
carries the owning domain name. -/
def flattenDomains (doms : List DomainMigrations) : List (String × Migration) :=
  (doms.map (fun dm => dm.migrations.map (fun m => (dm.domain, m)))).flatten

/-- The `(domain, name)` key of one flattened entry. -/
def keyOf (p : String × Migration) : MKey := (p.1, p.2.name)

/-- Database state as seen by the migration runner: the rows of the
`_migrations` ledger table in insertion order, plus a log of every `up`
statement batch the runner has ever sent to the database (used to state
the at-most-once execution properties; the database itself keeps no such
log, but each `this.db.query(migration.up)` call appends to it). -/
structure RunnerState where
  ledger : List MKey
  executedUps : List MKey
  deriving DecidableEq, Repr

/-- Environment oracle: whether the `up` batch of the migration with the
given domain and name succeeds when executed during one `runAll` pass. -/
abbrev UpOracle := String → String → Bool

/-- `MigrationRunner.isMigrationExecuted`: `SELECT 1 FROM _migrations WHERE
domain = $1 AND name = $2` returns a row exactly when the ledger holds the
key, and the method returns `rowCount > 0`. -/
def isMigrationExecuted (st : RunnerState) (domain name : String) : Bool :=
  decide ((domain, name) ∈ st.ledger)

/-- `MigrationRunner.recordMigration`: `INSERT INTO _migrations (domain,
name) VALUES ($1, $2)` appends a ledger row. -/
def recordMigration (st : RunnerState) (domain name : String) : RunnerState :=
  { st with ledger := st.ledger ++ [(domain, name)] }

/-- The migration loop of `MigrationRunner.runAll`, over the flattened
migration list: skip a migration whose key is in the ledger; otherwise
execute its `up` batch (logged in `executedUps`) and, if the batch
succeeds, record it; if the batch throws, the run aborts at once — the
returned `Option MKey` is the surfaced error, identifying the failing
migration, and the returned state is the database state at the abort. -/
def runMigrations (upOk : UpOracle) :
    List (String × Migration) → RunnerState → RunnerState × Option MKey
  | [], st => (st, none)
  | (d, m) :: rest, st =>
    if isMigrationExecuted st d m.name then
      runMigrations upOk rest st
    else if upOk d m.name then
      runMigrations upOk rest
        (recordMigration { st with executedUps := st.executedUps ++ [(d, m.name)] } d m.name)
    else
      ({ st with executedUps := st.executedUps ++ [(d, m.name)] }, some (d, m.name))

/-- `MigrationRunner.runAll` on the registered domains (its initial
`initialize` call only issues a conditional `CREATE TABLE` for the ledger
and never alters existing ledger rows, so it is the identity on
`RunnerState`). -/
def runAll (doms : List DomainMigrations) (upOk : UpOracle) (st : RunnerState) :
    RunnerState × Option MKey :=
  runMigrations upOk (flattenDomains doms) st

/-- A sequence of `runAll` invocations, each with its own environment
oracle; a failed run leaves the database in its abort state and the next
invocation starts from there. -/
def runAllSeq (doms : List DomainMigrations) :
    List UpOracle → RunnerState → RunnerState
  | [], st => st
  | f :: fs, st => runAllSeq doms fs (runAll doms f st).1

/-- Downward closure of a ledger with respect to a migration order:
whenever the ledger holds the key of some entry, it also holds the keys of
all earlier entries. Every ledger reachable by repeated `runAll` passes
over one registration with unique keys satisfies this, because records are
inserted strictly in migration order and a failing pass stops before
recording anything at or after the failure. -/
def downwardClosed (ms : List (String × Migration)) (ledger : List MKey) : Prop :=
  ∀ l1 p l2, ms = l1 ++ p :: l2 → keyOf p ∈ ledger → ∀ q ∈ l1, keyOf q ∈ ledger

/-- Concrete registration used to exercise the failure semantics of
`runAll`: one domain with two migrations, as in the spec's concrete
scenario for domain `"x"`. -/
def domsX : List DomainMigrations :=
  [DomainMigrations.mk "x"
    [Migration.mk "000_create_schema" "CREATE SCHEMA x" "DROP SCHEMA x",
     Migration.mk "001_create_table" "CREATE TABLE x.t (id INT)" "DROP TABLE x.t"]]

/-- Environment oracle under which the first migration's `up` batch
succeeds and the second fails. -/
def upOkX : UpOracle := fun _ n => n == "000_create_schema"

/-- The abort state of the failing `runAll` pass over `domsX`: the first
migration recorded, both batches attempted. -/
def stX : RunnerState :=
  RunnerState.mk [("x", "000_create_schema")]
    [("x", "000_create_schema"), ("x", "001_create_table")]

/-- Handler identity. JS stores handler function objects in a `Set`;
identity of a handler is reference identity, modelled by a numeric id,
while its behaviour is a separate semantic map supplied at publish time. -/
abbrev HId := Nat

/-- A domain event (`DomainEvent` in `domain-event.ts`): routing key
`eventType`, creation timestamp and a payload (abstracted to a number;
events are immutable values, so only their identity matters here). -/
structure DomainEvent where
  eventType : String
  occurredAt : Nat
  payload : Nat
  deriving DecidableEq, Repr

/-- JS `Set.prototype.add`: no-op when the element is present, else insert
at the end (iteration order of a JS `Set` is insertion order). -/
def setAdd (s : List HId) (h : HId) : List HId :=
  if h ∈ s then s else s ++ [h]

/-- The event bus: its `handlers` map from event-type string to the set of
subscribed handlers (entries in insertion order; JS `Map` keys are
unique for buses built through `subscribe`). -/
structure EventBus where
  handlers : List (String × List HId)
  deriving DecidableEq, Repr

/-- `this.handlers.get(eventType)`. -/
def EventBus.handlersFor (bus : EventBus) (ty : String) : Option (List HId) :=
  (bus.handlers.find? (fun p => p.1 == ty)).map (fun p => p.2)

/-- In-place mutation of the set stored under key `ty` of the handlers
map: every entry whose key matches is replaced by the updated set (for a
JS `Map`, whose keys are unique, this is exactly the one entry the looked
up `Set` reference belongs to), all other entries are untouched. -/
def mapUpdate (ty : String) (f : List HId → List HId) :
    List (String × List HId) → List (String × List HId)
  | [] => []
  | (k, s) :: rest =>
    if k == ty then (k, f s) :: mapUpdate ty f rest
    else (k, s) :: mapUpdate ty f rest

/-- `EventBus.subscribe`: create the entry with an empty set when absent,
then `Set.add` the handler to the entry's set. -/
def EventBus.subscribe (bus : EventBus) (ty : String) (h : HId) : EventBus :=
  match bus.handlersFor ty with
  | some _ => EventBus.mk (mapUpdate ty (fun s => setAdd s h) bus.handlers)
  | none => EventBus.mk (bus.handlers ++ [(ty, [h])])

/-- The unsubscribe capability returned by `subscribe`: the closure
`() => eventHandlers.delete(handler)` removes this handler from the set
for this event type. Both capabilities returned for the same
`(eventType, handler)` pair capture the same set object and the same
handler reference, so either one denotes this same state update. -/
def EventBus.unsubscribe (bus : EventBus) (ty : String) (h : HId) : EventBus :=
  EventBus.mk (mapUpdate ty (fun s => s.filter (fun x => x != h)) bus.handlers)

/-- The array `Array.from(eventHandlers)` that `publish` materializes for
`event.eventType` before fanning out (empty when the map has no entry). -/
def EventBus.snapshot (bus : EventBus) (ty : String) : List HId :=
  (bus.handlersFor ty).getD []

/-- Handler behaviour: what each handler's promise settles to for a given
event. -/
abbrev HandlerSem := HId → DomainEvent → Except String Unit

/-- `Promise.all` over the ordered list of handler results: resolves when
every entry resolved, rejects with the reason of the first rejected entry
(for synchronously settled handler promises, first in array order). -/
def promiseAll : List (Except String Unit) → Except String Unit
  | [] => Except.ok ()
  | Except.ok _ :: rest => promiseAll rest
  | Except.error e :: _ => Except.error e

/-- `EventBus.publish`: no entry for the event type means trivial success;
otherwise every handler in the materialized array is invoked once with the
published event (first component: the invocation log, in array order) and
the publish call settles like `Promise.all` of the handler results. -/
def EventBus.publish (bus : EventBus) (sem : HandlerSem) (e : DomainEvent) :
    List (HId × DomainEvent) × Except String Unit :=
  match bus.handlersFor e.eventType with
  | none => ([], Except.ok ())
  | some hs => (hs.map (fun h => (h, e)), promiseAll (hs.map (fun h => sem h e)))

/-- One step of the fan-out phase of a `publish` call, interleaved with
the rest of the process: either the next pending handler invocation from
the materialized array happens, or some other code path subscribes a
handler, mutating the live map while the publish call is in flight. -/
inductive FanStep
  | invokeNext
  | newSub (ty : String) (h : HId)

/-- Execution of the fan-out of `publish` under an arbitrary interleaving:
`pending` is the not-yet-invoked remainder of the materialized array,
`done` the invocation log so far; when the step list ends, the remaining
pending handlers are still invoked (the publish call resolves only after
all of them ran). Subscriptions landing mid-flight mutate the bus, never
the already-materialized array. -/
def fanout (e : DomainEvent) :
    List FanStep → List HId → List (HId × DomainEvent) → EventBus →
      List (HId × DomainEvent) × EventBus
  | [], pending, done, bus => (done ++ pending.map (fun h => (h, e)), bus)
  | FanStep.invokeNext :: steps, [], done, bus => fanout e steps [] done bus
  | FanStep.invokeNext :: steps, h :: pending, done, bus =>
      fanout e steps pending (done ++ [(h, e)]) bus
  | FanStep.newSub ty h :: steps, pending, done, bus =>
      fanout e steps pending done (bus.subscribe ty h)

/-- One `publish` call with concurrent subscriptions interleaved into its
fan-out: the handler array is materialized from the bus state at call
time (`Array.from`), then the fan-out runs. Returns the invocation log
and the final bus state. -/
def publishFanout (bus : EventBus) (e : DomainEvent) (steps : List FanStep) :
    List (HId × DomainEvent) × EventBus :=
  fanout e steps (bus.snapshot e.eventType) [] bus

instance {ε α : Type} [DecidableEq ε] [DecidableEq α] : DecidableEq (Except ε α) :=
  fun a b =>
    match a, b with
    | Except.ok x, Except.ok y =>
      if h : x = y then isTrue (by rw [h]) else isFalse (fun hc => h (Except.ok.inj hc))
    | Except.error x, Except.error y =>
      if h : x = y then isTrue (by rw [h]) else isFalse (fun hc => h (Except.error.inj hc))
    | Except.ok _, Except.error _ => isFalse (fun hc => Except.noConfusion hc)
    | Except.error _, Except.ok _ => isFalse (fun hc => Except.noConfusion hc)

/-- Concrete bus with two distinct handlers subscribed to type `"t"`. -/
def busT : EventBus := ((EventBus.mk []).subscribe "t" 0).subscribe "t" 1

/-- Concrete event of type `"t"`. -/
def evT : DomainEvent := DomainEvent.mk "t" 0 0

/-- Handler behaviour where every handler succeeds. -/
def semOkT : HandlerSem := fun _ _ => Except.ok ()

/-- Handler behaviour where both handlers fail, with distinct errors. -/
def semErrT : HandlerSem :=
  fun h _ => if h == 0 then Except.error "e0" else Except.error "e1"

/-- Handler behaviour where handler 0 succeeds and every other fails. -/
def semMixT : HandlerSem :=
  fun h _ => if h == 0 then Except.ok () else Except.error "boom"

/-- The operations `Transaction.run` performs on its pool client, in
order: acquire (`this.db.getClient()`), the `BEGIN` statement, the
callback invocation, the `COMMIT` or `ROLLBACK` statement, and
`client.release()`. -/
inductive TxOp
  | acquire
  | beginTx
  | callFn
  | commitTx
  | rollbackTx
  | release
  deriving DecidableEq, Repr

/-- The `catch` block of `Transaction.run` followed by its `finally`
block: a `ROLLBACK` is issued; if it succeeds the caught error `e` is
re-thrown unchanged, while if the `ROLLBACK` itself throws, its error
propagates instead; in both cases the client is then released. -/
def txCatch {α : Type} (e : String) (rbR : Except String Unit) :
    Except String α × List TxOp :=
  match rbR with
  | Except.ok _ => (Except.error e, [TxOp.rollbackTx, TxOp.release])
  | Except.error r => (Except.error r, [TxOp.rollbackTx, TxOp.release])

/-- `Transaction.run fn`, with the outcomes of the infrastructure steps
supplied by the environment: `acqR` is `this.db.getClient()`, `beginR`
the `BEGIN` statement, `fnR` the callback's outcome (the callback
receives a query capability bound to the acquired client; the effects of
its queries are abstracted into this outcome), `commitR` the `COMMIT`
and `rbR` the `ROLLBACK` statement. Returns the outcome returned or
re-thrown to the caller together with the ordered trace of client
operations performed. -/
def Transaction.run {α : Type} (acqR beginR : Except String Unit)
    (fnR : Except String α) (commitR rbR : Except String Unit) :
    Except String α × List TxOp :=
  match acqR with
  | Except.error e => (Except.error e, [])
  | Except.ok _ =>
    match beginR with
    | Except.error e =>
      let c : Except String α × List TxOp := txCatch e rbR
      (c.1, TxOp.acquire :: TxOp.beginTx :: c.2)
    | Except.ok _ =>
      match fnR with
      | Except.error e =>
        let c : Except String α × List TxOp := txCatch e rbR
        (c.1, TxOp.acquire :: TxOp.beginTx :: TxOp.callFn :: c.2)
      | Except.ok a =>
        match commitR with
        | Except.error e =>
          let c : Except String α × List TxOp := txCatch e rbR
          (c.1, TxOp.acquire :: TxOp.beginTx :: TxOp.callFn :: TxOp.commitTx :: c.2)
        | Except.ok _ =>
          (Except.ok a, [TxOp.acquire, TxOp.beginTx, TxOp.callFn, TxOp.commitTx, TxOp.release])

/-- `DatabaseConnection`: `pool` is `null` until a pool is constructed;
the connection string it was built with stands in for the pool object. -/
structure DBConn where
  pool : Option String
  deriving DecidableEq, Repr

/-- The message of the error thrown by `query` and `getClient` when no
pool exists. -/
def notConnectedMsg : String := "Database not connected. Call connect() first."

/-- `connect(connectionString)`: returns immediately when a pool already
exists; otherwise it assigns `this.pool` first and then performs the
verification round-trip (`pool.connect()` then `release()`), whose
outcome `verifyR` becomes the outcome of `connect` — the pool stays
assigned even when the verification throws. -/
def DBConn.connect (c : DBConn) (url : String) (verifyR : Except String Unit) :
    DBConn × Except String Unit :=
  if c.pool.isSome then (c, Except.ok ())
  else (DBConn.mk (some url), verifyR)

/-- The database's response to a query: result rows and row count,
abstracted. -/
abbrev QueryExec := String → List String → Except String (List String × Nat)

/-- `query(sql, params)`: throws the "not connected" error when no pool
exists, else delegates to the pool. -/
def DBConn.query (c : DBConn) (exec : QueryExec) (sql : String) (ps : List String) :
    Except String (List String × Nat) :=
  match c.pool with
  | none => Except.error notConnectedMsg
  | some _ => exec sql ps

/-- `disconnect()`: no-op without a pool; otherwise awaits `pool.end()`
(outcome `endR`) and only on its success clears the pool reference. -/
def DBConn.disconnect (c : DBConn) (endR : Except String Unit) :
    DBConn × Except String Unit :=
  match c.pool with
  | none => (c, Except.ok ())
  | some _ =>
    match endR with
    | Except.ok _ => (DBConn.mk none, Except.ok ())
    | Except.error e => (c, Except.error e)

/-- A query executor that answers every query with an empty result. -/
def execOkT : QueryExec := fun _ _ => Except.ok ([], 0)

/-- The ledger-table creation step of the migration runner (the
`initialize` method): it issues the conditional `CREATE TABLE` for
`_migrations` (outcome `createR`) inside a `try`; on failure the `catch`
block logs `"Error initializing migrations table:"` with the error via
`console.error` and the method returns normally. First component: the
method's outcome as seen by its caller; second: the console log lines it
emitted. -/
def MigrationRunner.initMigrationsTable (createR : Except String Unit) :
    Except String Unit × List String :=
  match createR with
  | Except.ok _ => (Except.ok (), [])
  | Except.error e => (Except.ok (), ["Error initializing migrations table: " ++ e])

theorem ledger_mono (upOk : UpOracle) (ms : List (String × Migration))
    (st : RunnerState) (p : MKey) (hp : p ∈ st.ledger) :
    p ∈ (runMigrations upOk ms st).1.ledger := by
  induction ms generalizing st with
  | nil => simpa [runMigrations] using hp
  | cons hd tl ih =>
    obtain ⟨d, m⟩ := hd
    by_cases hmem : (d, m.name) ∈ st.ledger
    · simpa [runMigrations, isMigrationExecuted, hmem] using ih st hp
    · by_cases hup : upOk d m.name
      · have : p ∈ (recordMigration
            { st with executedUps := st.executedUps ++ [(d, m.name)] } d m.name).ledger := by
          simp [recordMigration]
          exact Or.inl hp
        simpa [runMigrations, isMigrationExecuted, hmem, hup] using ih _ this
      · simpa [runMigrations, isMigrationExecuted, hmem, hup] using hp

theorem exec_count_of_mem_ledger (upOk : UpOracle) (ms : List (String × Migration))
    (st : RunnerState) (p : MKey) (hp : p ∈ st.ledger) :
    (runMigrations upOk ms st).1.executedUps.count p = st.executedUps.count p := by
  induction ms generalizing st with
  | nil => simp [runMigrations]
  | cons hd tl ih =>
    obtain ⟨d, m⟩ := hd
    by_cases hmem : (d, m.name) ∈ st.ledger
    · simpa [runMigrations, isMigrationExecuted, hmem] using ih st hp
    · have hne : (d, m.name) ≠ p := fun h => hmem (h ▸ hp)
      by_cases hup : upOk d m.name
      · have hp2 : p ∈ (recordMigration
            { st with executedUps := st.executedUps ++ [(d, m.name)] } d m.name).ledger := by
          simp [recordMigration]
          exact Or.inl hp
        have hstep : runMigrations upOk ((d, m) :: tl) st = runMigrations upOk tl
            (recordMigration { st with executedUps := st.executedUps ++ [(d, m.name)] } d m.name) := by
          simp [runMigrations, isMigrationExecuted, hmem, hup]
        rw [hstep, ih _ hp2]
        simp [recordMigration, List.count_append, List.count_singleton, hne]
      · simp [runMigrations, isMigrationExecuted, hmem, hup,
          List.count_append, List.count_singleton, hne]

theorem exec_count_runAllSeq (doms : List DomainMigrations) (oracles : List UpOracle)
    (st : RunnerState) (p : MKey) (hp : p ∈ st.ledger) :
    (runAllSeq doms oracles st).executedUps.count p = st.executedUps.count p := by
  induction oracles generalizing st with
  | nil => rfl
  | cons f fs ih =>
    have h1 := ledger_mono f (flattenDomains doms) st p hp
    have h2 := exec_count_of_mem_ledger f (flattenDomains doms) st p hp
    have h3 := ih (runAll doms f st).1 h1
    simpa [runAllSeq, runAll] using h3.trans h2

theorem exec_count_le (upOk : UpOracle) (ms : List (String × Migration))
    (st : RunnerState) (p : MKey) :
    (runMigrations upOk ms st).1.executedUps.count p ≤ st.executedUps.count p + 1 := by
  induction ms generalizing st with
  | nil => simp [runMigrations]
  | cons hd tl ih =>
    obtain ⟨d, m⟩ := hd
    by_cases hmem : (d, m.name) ∈ st.ledger
    · simpa [runMigrations, isMigrationExecuted, hmem] using ih st
    · by_cases hup : upOk d m.name
      · have hstep : runMigrations upOk ((d, m) :: tl) st = runMigrations upOk tl
            (recordMigration { st with executedUps := st.executedUps ++ [(d, m.name)] } d m.name) := by
          simp [runMigrations, isMigrationExecuted, hmem, hup]
        rw [hstep]
        by_cases hpe : p = (d, m.name)
        · have hmem2 : p ∈ (recordMigration
              { st with executedUps := st.executedUps ++ [(d, m.name)] } d m.name).ledger := by
            simp [recordMigration, hpe]
          rw [exec_count_of_mem_ledger upOk tl _ p hmem2]
          simp [recordMigration, List.count_append, List.count_singleton, hpe]
        · have hb := ih (recordMigration
              { st with executedUps := st.executedUps ++ [(d, m.name)] } d m.name)
          simpa [recordMigration, List.count_append, List.count_singleton, hpe] using hb
      · by_cases hpe : p = (d, m.name)
        · simp [runMigrations, isMigrationExecuted, hmem, hup,
            List.count_append, List.count_singleton, hpe]
        · simp [runMigrations, isMigrationExecuted, hmem, hup,
            List.count_append, List.count_singleton, hpe]

/-- C1: for every sequence of `registerDomain` calls and every number of
sequential `runAll` invocations (each with an arbitrary environment
oracle), once a ledger record for `(domain, name)` exists, no later
`runAll` executes that migration's `up` batch again: the number of times
that batch has ever been sent to the database stays unchanged. -/
theorem mm_C1 (calls : List DomainMigrations) (oracles : List UpOracle)
    (st : RunnerState) (d n : String) (h : (d, n) ∈ st.ledger) :
    (runAllSeq (calls.foldl registerDomain []) oracles st).executedUps.count (d, n)
      = st.executedUps.count (d, n) :=
  exec_count_runAllSeq (calls.foldl registerDomain []) oracles st (d, n) h

theorem mm_C1_witness :
    ("auth", "001") ∈ (RunnerState.mk [("auth", "001")] []).ledger ∧
    (runAllSeq ([DomainMigrations.mk "auth" [Migration.mk "001" "CREATE TABLE t" "DROP TABLE t"]].foldl
        registerDomain []) [fun _ _ => true, fun _ _ => true]
        (RunnerState.mk [("auth", "001")] [])).executedUps.count ("auth", "001")
      = (RunnerState.mk [("auth", "001")] []).executedUps.count ("auth", "001") :=
  ⟨by decide, mm_C1 [DomainMigrations.mk "auth" [Migration.mk "001" "CREATE TABLE t" "DROP TABLE t"]]
      [fun _ _ => true, fun _ _ => true] (RunnerState.mk [("auth", "001")] []) "auth" "001" (by decide)⟩

theorem runMigrations_skip (f : UpOracle) (ms : List (String × Migration))
    (st : RunnerState) (d : String) (m : Migration) (h : (d, m.name) ∈ st.ledger) :
    runMigrations f ((d, m) :: ms) st = runMigrations f ms st := by
  simp [runMigrations, isMigrationExecuted, h]

theorem runMigrations_all_fresh (ms : List (String × Migration)) (st : RunnerState)
    (hnd : (ms.map keyOf).Nodup) (hfresh : ∀ q ∈ ms, keyOf q ∉ st.ledger) :
    (runMigrations (fun _ _ => true) ms st).2 = none ∧
    (runMigrations (fun _ _ => true) ms st).1.executedUps
      = st.executedUps ++ ms.map keyOf := by
  induction ms generalizing st with
  | nil => simp [runMigrations]
  | cons hd tl ih =>
    obtain ⟨d, m⟩ := hd
    rw [List.map_cons] at hnd
    obtain ⟨hhd, htl⟩ := List.nodup_cons.mp hnd
    have hmem : (d, m.name) ∉ st.ledger := hfresh (d, m) (by simp)
    have hstep : runMigrations (fun _ _ => true) ((d, m) :: tl) st
        = runMigrations (fun _ _ => true) tl
          (recordMigration { st with executedUps := st.executedUps ++ [(d, m.name)] } d m.name) := by
      simp [runMigrations, isMigrationExecuted, hmem]
    have hfresh2 : ∀ q ∈ tl, keyOf q ∉ (recordMigration
        { st with executedUps := st.executedUps ++ [(d, m.name)] } d m.name).ledger := by
      intro q hq hqmem
      simp only [recordMigration, List.mem_append, List.mem_singleton] at hqmem
      rcases hqmem with hqold | hqnew
      · exact hfresh q (List.mem_cons_of_mem _ hq) hqold
      · apply hhd
        have hmm := List.mem_map_of_mem keyOf hq
        rw [hqnew] at hmm
        exact hmm
    obtain ⟨hnone, hexec⟩ := ih _ htl hfresh2
    refine ⟨by rw [hstep]; exact hnone, ?_⟩
    rw [hstep, hexec]
    simp [recordMigration, keyOf]

theorem runMigrations_fail_split (upOk : UpOracle) (ms : List (String × Migration))
    (st0 st1 : RunnerState) (er : MKey)
    (hnd : (ms.map keyOf).Nodup)
    (hdc : downwardClosed ms st0.ledger)
    (hrun : runMigrations upOk ms st0 = (st1, some er)) :
    ∃ l1 p l2, ms = l1 ++ p :: l2 ∧ er = keyOf p ∧
      (∀ q ∈ l1, keyOf q ∈ st1.ledger) ∧
      keyOf p ∉ st1.ledger ∧
      (∀ q ∈ l2, keyOf q ∉ st1.ledger) ∧
      (runMigrations (fun _ _ => true) ms st1).2 = none ∧
      (runMigrations (fun _ _ => true) ms st1).1.executedUps
        = st1.executedUps ++ (p :: l2).map keyOf := by
  induction ms generalizing st0 with
  | nil => simp [runMigrations] at hrun
  | cons hd tl ih =>
    obtain ⟨d, m⟩ := hd
    rw [List.map_cons] at hnd
    obtain ⟨hhd, htl⟩ := List.nodup_cons.mp hnd
    by_cases hmem : (d, m.name) ∈ st0.ledger
    · have hrun2 : runMigrations upOk tl st0 = (st1, some er) := by
        rw [← runMigrations_skip upOk tl st0 d m hmem]
        exact hrun
      have hdc2 : downwardClosed tl st0.ledger := by
        intro l1 p l2 hsplit hp q hq
        exact hdc ((d, m) :: l1) p l2 (by rw [hsplit]; rfl) hp q (List.mem_cons_of_mem _ hq)
      obtain ⟨l1, p, l2, hsplit, her, hpre, hpnot, hpost, hrunb, hexecb⟩ :=
        ih st0 htl hdc2 hrun2
      have hst1 : (runMigrations upOk tl st0).1 = st1 := by rw [hrun2]
      have hdm1 : (d, m.name) ∈ st1.ledger := by
        rw [← hst1]; exact ledger_mono upOk tl st0 _ hmem
      refine ⟨(d, m) :: l1, p, l2, by rw [hsplit]; rfl, her, ?_, hpnot, hpost, ?_, ?_⟩
      · intro q hq
        rcases List.mem_cons.mp hq with hq1 | hq2
        · rw [hq1]; exact hdm1
        · exact hpre q hq2
      · rw [runMigrations_skip _ tl st1 d m hdm1]; exact hrunb
      · rw [runMigrations_skip _ tl st1 d m hdm1]; exact hexecb
    · by_cases hup : upOk d m.name
      · have hrun2 : runMigrations upOk tl
            (recordMigration { st0 with executedUps := st0.executedUps ++ [(d, m.name)] } d m.name)
            = (st1, some er) := by
          rw [show runMigrations upOk tl (recordMigration
              { st0 with executedUps := st0.executedUps ++ [(d, m.name)] } d m.name)
              = runMigrations upOk ((d, m) :: tl) st0 from by
            simp [runMigrations, isMigrationExecuted, hmem, hup]]
          exact hrun
        have hdc2 : downwardClosed tl (recordMigration
            { st0 with executedUps := st0.executedUps ++ [(d, m.name)] } d m.name).ledger := by
          intro l1 p l2 hsplit hp q hq
          simp only [recordMigration, List.mem_append, List.mem_singleton] at hp ⊢
          rcases hp with hpold | hpnew
          · exact Or.inl (hdc ((d, m) :: l1) p l2 (by rw [hsplit]; rfl) hpold q
              (List.mem_cons_of_mem _ hq))
          · exfalso
            have hpin : p ∈ tl := by rw [hsplit]; exact List.mem_append_right _ (List.mem_cons_self _ _)
            have : keyOf p ∈ tl.map keyOf := List.mem_map_of_mem keyOf hpin
            rw [hpnew] at this
            exact hhd this
        obtain ⟨l1, p, l2, hsplit, her, hpre, hpnot, hpost, hrunb, hexecb⟩ :=
          ih _ htl hdc2 hrun2
        have hst1 : (runMigrations upOk tl (recordMigration
            { st0 with executedUps := st0.executedUps ++ [(d, m.name)] } d m.name)).1 = st1 := by
          rw [hrun2]
        have hdm1 : (d, m.name) ∈ st1.ledger := by
          rw [← hst1]
          exact ledger_mono upOk tl _ _ (by simp [recordMigration])
        refine ⟨(d, m) :: l1, p, l2, by rw [hsplit]; rfl, her, ?_, hpnot, hpost, ?_, ?_⟩
        · intro q hq
          rcases List.mem_cons.mp hq with hq1 | hq2
          · rw [hq1]; exact hdm1
          · exact hpre q hq2
        · rw [runMigrations_skip _ tl st1 d m hdm1]; exact hrunb
        · rw [runMigrations_skip _ tl st1 d m hdm1]; exact hexecb
      · have heq : (({ st0 with executedUps := st0.executedUps ++ [(d, m.name)] } : RunnerState),
            (some (d, m.name) : Option MKey)) = (st1, some er) := by
          rw [show (({ st0 with executedUps := st0.executedUps ++ [(d, m.name)] } : RunnerState),
              (some (d, m.name) : Option MKey)) = runMigrations upOk ((d, m) :: tl) st0 from by
            simp [runMigrations, isMigrationExecuted, hmem, hup]]
          exact hrun
        have hst1 : st1 = { st0 with executedUps := st0.executedUps ++ [(d, m.name)] } := by
          have := congrArg Prod.fst heq
          exact this.symm
        have her : er = (d, m.name) := by
          have := congrArg Prod.snd heq
          simpa using this.symm
        have hledger1 : st1.ledger = st0.ledger := by rw [hst1]
        have hposttl : ∀ q ∈ tl, keyOf q ∉ st0.ledger := by
          intro q hq hqmem
          obtain ⟨s, t, hst⟩ := List.append_of_mem hq
          exact hmem (hdc ((d, m) :: s) q t (by rw [hst]; rfl) hqmem (d, m)
            (List.mem_cons_self _ _))
        have hfreshall : ∀ q ∈ (d, m) :: tl, keyOf q ∉ st1.ledger := by
          intro q hq
          rw [hledger1]
          rcases List.mem_cons.mp hq with hq1 | hq2
          · rw [hq1]; exact hmem
          · exact hposttl q hq2
        obtain ⟨hnone, hexec⟩ := runMigrations_all_fresh ((d, m) :: tl) st1
          (by rw [List.map_cons]; exact List.nodup_cons.mpr ⟨hhd, htl⟩) hfreshall
        exact ⟨[], (d, m), tl, rfl, her, by simp, by rw [hledger1]; exact hmem,
          fun q hq => by rw [hledger1]; exact hposttl q hq, hnone, hexec⟩

/-- C2: if during one `runAll` pass the `up` batch of the migration at
position k (registration order across domains, declared order within a
domain) fails — the split `l1 ++ p :: l2` with k = length of `l1` — then
every migration strictly before k has a ledger record, no migration at or
after k has any ledger record (in particular none added by this run), the
run aborts surfacing the error of exactly that migration, and a subsequent
`runAll` whose batches succeed re-attempts exactly the migration at
position k and all after it (its executed batches are precisely the keys
of `p :: l2`, in order). Hypotheses: the registration's keys are unique
(the spec's data-model requirement on `(domain, name)`), and the starting
ledger is downward closed, as holds for every state produced by earlier
`runAll` passes over the same registration. -/
theorem mm_C2 (doms : List DomainMigrations) (upOk : UpOracle)
    (st0 st1 : RunnerState) (er : MKey)
    (hnd : ((flattenDomains doms).map keyOf).Nodup)
    (hdc : downwardClosed (flattenDomains doms) st0.ledger)
    (hrun : runAll doms upOk st0 = (st1, some er)) :
    ∃ l1 p l2, flattenDomains doms = l1 ++ p :: l2 ∧ er = keyOf p ∧
      (∀ q ∈ l1, keyOf q ∈ st1.ledger) ∧
      keyOf p ∉ st1.ledger ∧
      (∀ q ∈ l2, keyOf q ∉ st1.ledger) ∧
      (runAll doms (fun _ _ => true) st1).2 = none ∧
      (runAll doms (fun _ _ => true) st1).1.executedUps
        = st1.executedUps ++ (p :: l2).map keyOf :=
  runMigrations_fail_split upOk (flattenDomains doms) st0 st1 er hnd hdc hrun

theorem mm_C2_witness :
    ((flattenDomains domsX).map keyOf).Nodup ∧
    (∃ l1 p l2, flattenDomains domsX = l1 ++ p :: l2 ∧
      ("x", "001_create_table") = keyOf p ∧
      (∀ q ∈ l1, keyOf q ∈ stX.ledger) ∧
      keyOf p ∉ stX.ledger ∧
      (∀ q ∈ l2, keyOf q ∉ stX.ledger) ∧
      (runAll domsX (fun _ _ => true) stX).2 = none ∧
      (runAll domsX (fun _ _ => true) stX).1.executedUps
        = stX.executedUps ++ (p :: l2).map keyOf) :=
  ⟨by decide, mm_C2 domsX upOkX (RunnerState.mk [] []) stX ("x", "001_create_table")
    (by decide)
    (fun _ _ _ _ hp => absurd hp (List.not_mem_nil _))
    (by decide)⟩

/-- C10: `registerDomain` is a plain push with no uniqueness check, so the
registration list may mention the same `(domain, name)` several times (in
one entry or across duplicate entries); still, a single `runAll` executes
that key's `up` batch at most once, because the ledger existence check
immediately precedes each execution and the record is inserted immediately
after a successful batch. Stated for an arbitrary starting state: one
`runAll` pass adds at most one execution of any `(domain, name)` key. -/
theorem mm_C10 (calls : List DomainMigrations) (upOk : UpOracle)
    (st : RunnerState) (d n : String) :
    (runAll (calls.foldl registerDomain []) upOk st).1.executedUps.count (d, n)
      ≤ st.executedUps.count (d, n) + 1 :=
  exec_count_le upOk (flattenDomains (calls.foldl registerDomain [])) st (d, n)

theorem promiseAll_ok_iff (l : List (Except String Unit)) :
    promiseAll l = Except.ok () ↔ ∀ r ∈ l, r = Except.ok () := by
  induction l with
  | nil => simp [promiseAll]
  | cons hd tl ih =>
    cases hd with
    | ok u => cases u; simp [promiseAll, ih]
    | error e => simp [promiseAll]

theorem promiseAll_append_ok (l1 l2 : List (Except String Unit))
    (h : ∀ r ∈ l1, r = Except.ok ()) :
    promiseAll (l1 ++ l2) = promiseAll l2 := by
  induction l1 with
  | nil => rfl
  | cons hd tl ih =>
    have hhd := h hd (List.mem_cons_self _ _)
    subst hhd
    simpa [promiseAll] using ih (fun r hr => h r (List.mem_cons_of_mem _ hr))

theorem count_eq_one_of_nodup_mem {α : Type} [BEq α] [LawfulBEq α] (l : List α) (a : α)
    (hnd : l.Nodup) (ha : a ∈ l) : l.count a = 1 := by
  induction l with
  | nil => cases ha
  | cons hd tl ih =>
    rw [List.count_cons]
    rcases List.mem_cons.mp ha with rfl | hmem
    · have hnotin : a ∉ tl := (List.nodup_cons.mp hnd).1
      simp [List.count_eq_zero_of_not_mem hnotin]
    · have hne : a ≠ hd := fun h => (List.nodup_cons.mp hnd).1 (h ▸ hmem)
      have hbe : (a == hd) = false := beq_eq_false_iff_ne.mpr hne
      rw [ih (List.nodup_cons.mp hnd).2 hmem]
      simp [hbe]
      exact fun h => hne h.symm

/-- C5: `publish` invokes every handler subscribed to the event's type at
publish time exactly once, every invocation receives the very event value
that was published, nothing else is invoked, and — completion order of the
handlers being abstracted away, since `Promise.all` waits for all of them
— the publish call resolves successfully exactly when every one of those
handlers succeeded. The handler set of a bus built by `subscribe` is
duplicate-free (JS `Set`), which is the `Nodup` hypothesis. -/
theorem mm_C5 (bus : EventBus) (sem : HandlerSem) (e : DomainEvent)
    (hnd : (bus.snapshot e.eventType).Nodup) :
    (∀ h ∈ bus.snapshot e.eventType, (bus.publish sem e).1.count (h, e) = 1) ∧
    (∀ q ∈ (bus.publish sem e).1, q.2 = e ∧ q.1 ∈ bus.snapshot e.eventType) ∧
    ((bus.publish sem e).2 = Except.ok () ↔
      ∀ h ∈ bus.snapshot e.eventType, sem h e = Except.ok ()) := by
  cases hf : bus.handlersFor e.eventType with
  | none =>
    simp [EventBus.publish, EventBus.snapshot, hf]
  | some hs =>
    have hsnap : bus.snapshot e.eventType = hs := by simp [EventBus.snapshot, hf]
    rw [hsnap] at hnd ⊢
    have hinj : Function.Injective (fun h : HId => (h, e)) := by
      intro a b hab
      exact congrArg Prod.fst hab
    refine ⟨?_, ?_, ?_⟩
    · intro h hh
      simp only [EventBus.publish, hf]
      exact count_eq_one_of_nodup_mem _ _ (hnd.map hinj) (List.mem_map_of_mem _ hh)
    · intro q hq
      simp only [EventBus.publish, hf] at hq
      obtain ⟨h, hh, rfl⟩ := List.mem_map.mp hq
      exact ⟨rfl, hh⟩
    · simp only [EventBus.publish, hf]
      rw [promiseAll_ok_iff]
      constructor
      · intro hall h hh
        exact hall _ (List.mem_map_of_mem _ hh)
      · intro hall r hr
        obtain ⟨h, hh, rfl⟩ := List.mem_map.mp hr
        exact hall h hh

theorem mm_C5_witness :
    (busT.snapshot evT.eventType).Nodup ∧
    ((∀ h ∈ busT.snapshot evT.eventType, (busT.publish semOkT evT).1.count (h, evT) = 1) ∧
     (∀ q ∈ (busT.publish semOkT evT).1, q.2 = evT ∧ q.1 ∈ busT.snapshot evT.eventType) ∧
     ((busT.publish semOkT evT).2 = Except.ok () ↔
       ∀ h ∈ busT.snapshot evT.eventType, semOkT h evT = Except.ok ())) :=
  ⟨by decide, mm_C5 busT semOkT evT (by decide)⟩

/-- C6 counterexample: both handlers of `busT` fail, with errors `"e0"`
and `"e1"`; the publish call surfaces only `"e0"` — the first rejection —
and the second handler's failure `"e1"` appears nowhere in the outcome,
so the surfaced error is not an aggregate collecting all handler failures
(`Promise.all` rejects with a single reason). -/
theorem mm_C6_counterexample :
    (busT.publish semErrT evT).2 = Except.error "e0" ∧
    (busT.publish semErrT evT).2 ≠ Except.error "e1" ∧
    semErrT 1 evT = Except.error "e1" ∧ (1 : HId) ∈ busT.snapshot "t" := by
  decide

/-- C6 amended: if at least one handler invoked by a publish call fails,
the publish call fails as a whole, and the error surfaced to the publisher
is the single error of the first failing handler (in the order of the
materialized handler array); later failures are not collected. -/
theorem mm_C6_amended (bus : EventBus) (sem : HandlerSem) (e : DomainEvent)
    (hs front back : List HId) (h : HId) (err : String)
    (hf : bus.handlersFor e.eventType = some hs)
    (hsplit : hs = front ++ h :: back)
    (hok : ∀ h2 ∈ front, sem h2 e = Except.ok ())
    (herr : sem h e = Except.error err) :
    (bus.publish sem e).2 = Except.error err := by
  subst hsplit
  simp only [EventBus.publish, hf]
  rw [List.map_append, promiseAll_append_ok]
  · simp [promiseAll, herr]
  · intro r hr
    obtain ⟨h2, hh2, rfl⟩ := List.mem_map.mp hr
    exact hok h2 hh2

theorem mm_C6_amended_witness :
    busT.handlersFor "t" = some [0, 1] ∧
    (busT.publish semMixT evT).2 = Except.error "boom" :=
  ⟨by decide, mm_C6_amended busT semMixT evT [0, 1] [0] [] 1 "boom"
    (by decide) rfl (by decide) (by decide)⟩

theorem fanout_invocations (e : DomainEvent) (steps : List FanStep)
    (pending : List HId) (done : List (HId × DomainEvent)) (bus : EventBus) :
    (fanout e steps pending done bus).1 = done ++ pending.map (fun h => (h, e)) := by
  induction steps generalizing pending done bus with
  | nil => rfl
  | cons s steps ih =>
    cases s with
    | invokeNext =>
      cases pending with
      | nil => simpa [fanout] using ih [] done bus
      | cons h pending =>
        rw [show fanout e (FanStep.invokeNext :: steps) (h :: pending) done bus
            = fanout e steps pending (done ++ [(h, e)]) bus from rfl]
        rw [ih]
        simp
    | newSub ty h => simpa [fanout] using ih pending done (bus.subscribe ty h)

/-- C7: the set of handlers a `publish` call invokes is exactly the handler
array materialized from the bus at the moment `publish` begins iterating
(`Array.from(eventHandlers)`), whatever subscriptions are interleaved into
the fan-out: a handler that was not subscribed to the event's type when
fan-out began is never invoked by this publish call, even if a mid-flight
step subscribes it to that type. -/
theorem mm_C7 (bus : EventBus) (e : DomainEvent) (steps : List FanStep) :
    (publishFanout bus e steps).1 = (bus.snapshot e.eventType).map (fun h => (h, e)) ∧
    ∀ h, h ∉ bus.snapshot e.eventType → ∀ ev, (h, ev) ∉ (publishFanout bus e steps).1 := by
  have h1 : (publishFanout bus e steps).1
      = (bus.snapshot e.eventType).map (fun h => (h, e)) := by
    unfold publishFanout
    simpa using fanout_invocations e steps (bus.snapshot e.eventType) [] bus
  refine ⟨h1, ?_⟩
  intro h hh ev hmem
  rw [h1] at hmem
  obtain ⟨h2, hh2, heq⟩ := List.mem_map.mp hmem
  injection heq with hfst hsnd
  subst hfst
  exact hh hh2

theorem mm_C7_witness :
    (9 : HId) ∉ busT.snapshot evT.eventType ∧
    ((publishFanout busT evT [FanStep.newSub "t" 9, FanStep.invokeNext]).1
      = (busT.snapshot evT.eventType).map (fun h => (h, evT))) ∧
    ((9 : HId), evT) ∉ (publishFanout busT evT [FanStep.newSub "t" 9, FanStep.invokeNext]).1 :=
  ⟨by decide, (mm_C7 busT evT [FanStep.newSub "t" 9, FanStep.invokeNext]).1,
    (mm_C7 busT evT [FanStep.newSub "t" 9, FanStep.invokeNext]).2 9 (by decide) evT⟩

theorem mem_setAdd_self (s : List HId) (h : HId) : h ∈ setAdd s h := by
  by_cases hm : h ∈ s
  · simp [setAdd, hm]
  · simp [setAdd, hm]

theorem setAdd_mem_noop (s : List HId) (h : HId) (hm : h ∈ s) : setAdd s h = s := by
  simp [setAdd, hm]

theorem setAdd_nodup (s : List HId) (h : HId) (hnd : s.Nodup) : (setAdd s h).Nodup := by
  by_cases hm : h ∈ s
  · simpa [setAdd, hm] using hnd
  · have hap : (s ++ [h]).Nodup := by
      rw [List.nodup_append]
      refine ⟨hnd, List.nodup_singleton h, ?_⟩
      intro a ha hae
      rw [List.mem_singleton] at hae
      exact hm (hae ▸ ha)
    simpa [setAdd, hm] using hap

theorem find?_mapUpdate (ty : String) (f : List HId → List HId)
    (l : List (String × List HId)) :
    (mapUpdate ty f l).find? (fun p => p.1 == ty)
      = (l.find? (fun p => p.1 == ty)).map (fun p => (p.1, f p.2)) := by
  induction l with
  | nil => rfl
  | cons hd tl ih =>
    obtain ⟨k, s⟩ := hd
    by_cases hk : (k == ty) = true
    · simp [mapUpdate, hk, List.find?_cons]
    · simp [mapUpdate, hk, List.find?_cons, ih]

theorem mapUpdate_fix (ty : String) (f : List HId → List HId)
    (l : List (String × List HId))
    (hfix : ∀ p ∈ l, (p.1 == ty) = true → f p.2 = p.2) :
    mapUpdate ty f l = l := by
  induction l with
  | nil => rfl
  | cons hd tl ih =>
    obtain ⟨k, s⟩ := hd
    by_cases hk : (k == ty) = true
    · have hs : f s = s := hfix (k, s) (List.mem_cons_self _ _) hk
      simp [mapUpdate, hk, hs,
        ih (fun p hp hpty => hfix p (List.mem_cons_of_mem _ hp) hpty)]
    · simp [mapUpdate, hk,
        ih (fun p hp hpty => hfix p (List.mem_cons_of_mem _ hp) hpty)]

theorem mapUpdate_setAdd_mem (ty : String) (h : HId) (l : List (String × List HId)) :
    ∀ p ∈ mapUpdate ty (fun s => setAdd s h) l, (p.1 == ty) = true → h ∈ p.2 := by
  induction l with
  | nil =>
    intro p hp
    simp [mapUpdate] at hp
  | cons hd tl ih =>
    obtain ⟨k, s⟩ := hd
    intro p hp hpty
    by_cases hk : (k == ty) = true
    · rw [show mapUpdate ty (fun s => setAdd s h) ((k, s) :: tl)
          = (k, setAdd s h) :: mapUpdate ty (fun s => setAdd s h) tl from by
        simp [mapUpdate, hk]] at hp
      rcases List.mem_cons.mp hp with rfl | hmem
      · exact mem_setAdd_self s h
      · exact ih p hmem hpty
    · rw [show mapUpdate ty (fun s => setAdd s h) ((k, s) :: tl)
          = (k, s) :: mapUpdate ty (fun s => setAdd s h) tl from by
        simp [mapUpdate, hk]] at hp
      rcases List.mem_cons.mp hp with rfl | hmem
      · exact absurd hpty hk
      · exact ih p hmem hpty

theorem handlersFor_subscribe_same (bus : EventBus) (ty : String) (h : HId) :
    (bus.subscribe ty h).handlersFor ty = some (setAdd (bus.snapshot ty) h) := by
  cases hf : bus.handlersFor ty with
  | some s =>
    have hsnap : bus.snapshot ty = s := by simp [EventBus.snapshot, hf]
    simp only [EventBus.subscribe, hf]
    simp only [EventBus.handlersFor] at hf ⊢
    rw [find?_mapUpdate ty (fun s => setAdd s h) bus.handlers]
    obtain ⟨p, hp, hp2⟩ := Option.map_eq_some'.mp hf
    rw [hp]
    simp [hp2, hsnap]
  | none =>
    have hsnap : bus.snapshot ty = [] := by simp [EventBus.snapshot, hf]
    simp only [EventBus.subscribe, hf]
    simp only [EventBus.handlersFor] at hf ⊢
    have hfind : bus.handlers.find? (fun p => p.1 == ty) = none := Option.map_eq_none'.mp hf
    rw [List.find?_append, hfind]
    simp [hsnap, setAdd]

theorem subscribe_entry_mem (bus : EventBus) (ty : String) (h : HId) :
    ∀ p ∈ (bus.subscribe ty h).handlers, (p.1 == ty) = true → h ∈ p.2 := by
  cases hf : bus.handlersFor ty with
  | some s =>
    simp only [EventBus.subscribe, hf]
    exact mapUpdate_setAdd_mem ty h bus.handlers
  | none =>
    simp only [EventBus.subscribe, hf]
    intro p hp hpty
    rcases List.mem_append.mp hp with hpl | hpr
    · have hfind : bus.handlers.find? (fun q => q.1 == ty) = none := by
        simp only [EventBus.handlersFor] at hf
        exact Option.map_eq_none'.mp hf
      exact absurd hpty (by simpa using List.find?_eq_none.mp hfind p hpl)
    · rw [List.mem_singleton] at hpr
      subst hpr
      simp

theorem subscribe_idem (bus : EventBus) (ty : String) (h : HId) :
    (bus.subscribe ty h).subscribe ty h = bus.subscribe ty h := by
  set b2 := bus.subscribe ty h with hb2
  have hsome : b2.handlersFor ty = some (setAdd (bus.snapshot ty) h) :=
    handlersFor_subscribe_same bus ty h
  have hfix : ∀ p ∈ b2.handlers, (p.1 == ty) = true → setAdd p.2 h = p.2 := by
    intro p hp hpty
    exact setAdd_mem_noop p.2 h (subscribe_entry_mem bus ty h p hp hpty)
  calc b2.subscribe ty h
      = EventBus.mk (mapUpdate ty (fun s => setAdd s h) b2.handlers) := by
        simp only [EventBus.subscribe, hsome]
    _ = EventBus.mk b2.handlers := by rw [mapUpdate_fix ty _ b2.handlers hfix]
    _ = b2 := rfl

theorem snapshot_unsubscribe_same (bus : EventBus) (ty : String) (h : HId) :
    (bus.unsubscribe ty h).snapshot ty = (bus.snapshot ty).filter (fun x => x != h) := by
  simp only [EventBus.snapshot, EventBus.handlersFor, EventBus.unsubscribe]
  rw [find?_mapUpdate ty (fun s => s.filter (fun x => x != h)) bus.handlers]
  cases hf : bus.handlers.find? (fun p => p.1 == ty) <;> simp

theorem snapshot_nodup (bus : EventBus) (ty : String)
    (hwf : ∀ p ∈ bus.handlers, p.2.Nodup) : (bus.snapshot ty).Nodup := by
  simp only [EventBus.snapshot, EventBus.handlersFor]
  cases hf : bus.handlers.find? (fun p => p.1 == ty) with
  | none => simp
  | some p => simpa using hwf p (List.mem_of_find?_eq_some hf)

/-- C9: handlers for an event type live in a JS `Set`, so subscribing the
same handler function to the same event type a second time is a no-op (the
bus state is unchanged), a subsequent publish of an event of that type
invokes that handler exactly once, and invoking the returned unsubscribe
capability — both returned closures capture the same set object and
handler reference, hence denote the same deletion — removes the handler
entirely for that event type. The hypothesis is that the starting bus's
handler sets are duplicate-free, as any bus built via `subscribe` is. -/
theorem mm_C9 (bus : EventBus) (ty : String) (h : HId) (sem : HandlerSem) (e : DomainEvent)
    (hwf : ∀ p ∈ bus.handlers, p.2.Nodup) (hty : e.eventType = ty) :
    ((bus.subscribe ty h).subscribe ty h = bus.subscribe ty h) ∧
    ((((bus.subscribe ty h).subscribe ty h).publish sem e).1.count (h, e) = 1) ∧
    (h ∉ (((bus.subscribe ty h).subscribe ty h).unsubscribe ty h).snapshot ty) := by
  have hidem := subscribe_idem bus ty h
  refine ⟨hidem, ?_, ?_⟩
  · rw [hidem]
    have hf : (bus.subscribe ty h).handlersFor e.eventType
        = some (setAdd (bus.snapshot ty) h) := by
      rw [hty]
      exact handlersFor_subscribe_same bus ty h
    simp only [EventBus.publish, hf]
    have hinj : Function.Injective (fun x : HId => (x, e)) :=
      fun a b hab => congrArg Prod.fst hab
    have hnd : (setAdd (bus.snapshot ty) h).Nodup :=
      setAdd_nodup _ _ (snapshot_nodup bus ty hwf)
    exact count_eq_one_of_nodup_mem _ _ (hnd.map hinj)
      (List.mem_map_of_mem _ (mem_setAdd_self _ _))
  · rw [hidem, snapshot_unsubscribe_same]
    simp [List.mem_filter]

theorem mm_C9_witness :
    (((EventBus.mk []).subscribe "t" 3).subscribe "t" 3 = (EventBus.mk []).subscribe "t" 3) ∧
    (((((EventBus.mk []).subscribe "t" 3).subscribe "t" 3).publish semOkT evT).1.count (3, evT) = 1) ∧
    ((3 : HId) ∉ ((((EventBus.mk []).subscribe "t" 3).subscribe "t" 3).unsubscribe "t" 3).snapshot "t") :=
  mm_C9 (EventBus.mk []) "t" 3 semOkT evT (by simp) rfl

/-- C4 counterexample: when the callback throws and the `ROLLBACK`
statement itself also throws, the `catch` block's rollback query rejects
before the re-throw of the original error is reached, so the rollback
error — not the original callback error — propagates to the caller: the
unconditional "original error re-raised unchanged" fails on this call
(the client is still released). -/
theorem mm_C4_counterexample :
    (Transaction.run (Except.ok ()) (Except.ok ()) (Except.error "boom" : Except String Nat)
        (Except.ok ()) (Except.error "rollback failed")).1
      = Except.error "rollback failed" ∧
    (Transaction.run (Except.ok ()) (Except.ok ()) (Except.error "boom" : Except String Nat)
        (Except.ok ()) (Except.error "rollback failed")).1 ≠ Except.error "boom" ∧
    TxOp.release ∈ (Transaction.run (Except.ok ()) (Except.ok ())
        (Except.error "boom" : Except String Nat) (Except.ok ())
        (Except.error "rollback failed")).2 :=
  ⟨rfl, by decide, by decide⟩

/-- C4 amended: for every `Transaction.run` call — once a client was
acquired and the transaction opened — if the callback throws, the trace
is exactly acquire, `BEGIN`, callback, `ROLLBACK`, release (so a rollback
is issued before the release); when the `ROLLBACK` statement succeeds the
original callback error is re-raised unchanged, while when the `ROLLBACK`
itself throws, its error replaces the original one; if the callback
returns normally, a `COMMIT` is issued; and on every exit path after
acquisition — normal return, callback error, or unexpected failure of
`BEGIN`, `COMMIT` or `ROLLBACK` — the client is released, as the last
operation. -/
theorem mm_C4 {α : Type} (beginR commitR rbR : Except String Unit) (fnR : Except String α) :
    (∀ e, fnR = Except.error e → rbR = Except.ok () →
      Transaction.run (Except.ok ()) (Except.ok ()) fnR commitR rbR
        = (Except.error e,
            [TxOp.acquire, TxOp.beginTx, TxOp.callFn, TxOp.rollbackTx, TxOp.release])) ∧
    (∀ e r, fnR = Except.error e → rbR = Except.error r →
      Transaction.run (Except.ok ()) (Except.ok ()) fnR commitR rbR
        = (Except.error r,
            [TxOp.acquire, TxOp.beginTx, TxOp.callFn, TxOp.rollbackTx, TxOp.release])) ∧
    (∀ a, fnR = Except.ok a →
      TxOp.commitTx ∈ (Transaction.run (Except.ok ()) (Except.ok ()) fnR commitR rbR).2) ∧
    (TxOp.release ∈ (Transaction.run (Except.ok ()) beginR fnR commitR rbR).2 ∧
      (Transaction.run (Except.ok ()) beginR fnR commitR rbR).2.getLast? = some TxOp.release) := by
  refine ⟨?_, ?_, ?_, ?_⟩
  · rintro e rfl rfl
    rfl
  · rintro e r rfl rfl
    rfl
  · rintro a rfl
    cases commitR with
    | ok u => simp [Transaction.run]
    | error e => cases rbR <;> simp [Transaction.run, txCatch]
  · cases beginR <;> cases fnR <;> cases commitR <;> cases rbR <;>
      simp [Transaction.run, txCatch]

theorem mm_C4_witness :
    (Transaction.run (Except.ok ()) (Except.ok ()) (Except.error "boom" : Except String Nat)
        (Except.ok ()) (Except.ok ())
      = (Except.error "boom",
          [TxOp.acquire, TxOp.beginTx, TxOp.callFn, TxOp.rollbackTx, TxOp.release])) ∧
    (Transaction.run (Except.ok ()) (Except.ok ()) (Except.error "boom" : Except String Nat)
        (Except.ok ()) (Except.error "rbfail")
      = (Except.error "rbfail",
          [TxOp.acquire, TxOp.beginTx, TxOp.callFn, TxOp.rollbackTx, TxOp.release])) ∧
    (TxOp.commitTx ∈ (Transaction.run (Except.ok ()) (Except.ok ())
        (Except.ok 7 : Except String Nat) (Except.ok ()) (Except.ok ())).2) ∧
    (TxOp.release ∈ (Transaction.run (Except.ok ()) (Except.ok ())
        (Except.error "boom" : Except String Nat) (Except.ok ()) (Except.ok ())).2) :=
  ⟨(mm_C4 (Except.ok ()) (Except.ok ()) (Except.ok ()) (Except.error "boom")).1 "boom" rfl rfl,
   (mm_C4 (Except.ok ()) (Except.ok ()) (Except.error "rbfail")
      (Except.error "boom")).2.1 "boom" "rbfail" rfl rfl,
   (mm_C4 (Except.ok ()) (Except.ok ()) (Except.ok ()) (Except.ok 7)).2.2.1 7 rfl,
   ((mm_C4 (Except.ok ()) (Except.ok ()) (Except.ok ()) (Except.error "boom")).2.2).2.1⟩

/-- C8 counterexample: `connect` assigns `this.pool` before the
verification round-trip, so after a `connect` whose verification throws —
hence with no successful `connect` ever — `query` no longer fails with
the "not connected" condition: it reaches the pool and here returns the
executor's answer. This falsifies the claim that `query` before any
SUCCESSFUL connect fails with "not connected". -/
theorem mm_C8_counterexample :
    ((DBConn.mk none).connect "postgres" (Except.error "refused")).2
      = Except.error "refused" ∧
    ((DBConn.mk none).connect "postgres" (Except.error "refused")).1.query
        execOkT "SELECT 1" [] = Except.ok ([], 0) :=
  ⟨rfl, rfl⟩

/-- C8 amended: `connect(url)` when a pool exists is a no-op returning
success; `query` fails with the "not connected" condition exactly when
called before the first `connect` call (any `connect` call, even one
whose verification fails, installs the pool); and `disconnect` is safe to
call any number of times, including when never connected — a disconnected
or never-connected instance answers every further `disconnect` with a
success and an unchanged state. -/
theorem mm_C8 (c : DBConn) (url : String) (endR endR2 : Except String Unit)
    (v : Except String Unit) (exec : QueryExec) (sql : String) (ps : List String) :
    (c.pool.isSome → c.connect url v = (c, Except.ok ())) ∧
    (c.pool = none → c.query exec sql ps = Except.error notConnectedMsg) ∧
    ((c.connect url v).1.pool.isSome) ∧
    (((c.disconnect (Except.ok ())).1.disconnect endR2)
      = ((c.disconnect (Except.ok ())).1, Except.ok ())) ∧
    ((DBConn.mk none).disconnect endR = (DBConn.mk none, Except.ok ())) := by
  refine ⟨?_, ?_, ?_, ?_, rfl⟩
  · intro h
    simp [DBConn.connect, h]
  · intro h
    simp [DBConn.query, h]
  · cases hc : c.pool with
    | none => simp [DBConn.connect, hc]
    | some u => simp [DBConn.connect, hc]
  · cases hc : c.pool with
    | none => simp [DBConn.disconnect, hc]
    | some u => simp [DBConn.disconnect, hc]

theorem mm_C8_witness :
    ((DBConn.mk (some "u")).connect "v" (Except.ok ())
      = (DBConn.mk (some "u"), Except.ok ())) ∧
    ((DBConn.mk none).query execOkT "SELECT 1" [] = Except.error notConnectedMsg) ∧
    (((DBConn.mk (some "u")).connect "v" (Except.ok ())).1.pool.isSome) ∧
    ((DBConn.mk none).disconnect (Except.ok ()) = (DBConn.mk none, Except.ok ())) :=
  ⟨(mm_C8 (DBConn.mk (some "u")) "v" (Except.ok ()) (Except.ok ()) (Except.ok ())
      execOkT "SELECT 1" []).1 rfl,
   (mm_C8 (DBConn.mk none) "v" (Except.ok ()) (Except.ok ()) (Except.ok ())
      execOkT "SELECT 1" []).2.1 rfl,
   (mm_C8 (DBConn.mk (some "u")) "v" (Except.ok ()) (Except.ok ()) (Except.ok ())
      execOkT "SELECT 1" []).2.2.1,
   (mm_C8 (DBConn.mk none) "v" (Except.ok ()) (Except.ok ()) (Except.ok ())
      execOkT "SELECT 1" []).2.2.2.2⟩

/-- C3 counterexample: the ledger-table creation step catches its query's
failure, logs it to the console and returns success — the infrastructure
failure does not propagate to the immediate caller as an error result,
refuting "never silently swallowed" for this call. -/
theorem mm_C3_counterexample :
    (MigrationRunner.initMigrationsTable (Except.error "connection refused")).1
      = Except.ok () ∧
    (MigrationRunner.initMigrationsTable (Except.error "connection refused")).2
      = ["Error initializing migrations table: connection refused"] :=
  ⟨rfl, rfl⟩

/-- C3 amended: infrastructure-level failures propagate to the immediate
caller as an error result for the connection primitive (`query` before
`connect`), the transaction coordinator (a callback error is re-raised)
and the migration loop (a failing `up` batch aborts the run surfacing the
failure) — but not for the migration runner's ledger-table creation step,
which catches the failure, logs it, and returns success. -/
theorem mm_C3_amended (e : String) (exec : QueryExec) (sql : String)
    (ps : List String) (c : DBConn) (commitR : Except String Unit) (er : String) :
    ((MigrationRunner.initMigrationsTable (Except.error e)).1 = Except.ok () ∧
      (MigrationRunner.initMigrationsTable (Except.error e)).2 ≠ []) ∧
    (c.pool = none → c.query exec sql ps = Except.error notConnectedMsg) ∧
    ((Transaction.run (Except.ok ()) (Except.ok ()) (Except.error er : Except String Nat)
        commitR (Except.ok ())).1 = Except.error er) ∧
    (∀ (d : String) (m : Migration) (rest : List (String × Migration))
        (st : RunnerState) (upOk : UpOracle),
      (d, m.name) ∉ st.ledger → upOk d m.name = false →
      (runMigrations upOk ((d, m) :: rest) st).2 = some (d, m.name)) := by
  refine ⟨⟨rfl, by simp [MigrationRunner.initMigrationsTable]⟩, ?_, rfl, ?_⟩
  · intro h
    simp [DBConn.query, h]
  · intro d m rest st upOk hmem hup
    simp [runMigrations, isMigrationExecuted, hmem, hup]

theorem mm_C3_amended_witness :
    ((MigrationRunner.initMigrationsTable (Except.error "refused")).1 = Except.ok ()) ∧
    ((DBConn.mk none).query execOkT "SELECT 1" [] = Except.error notConnectedMsg) ∧
    ((runMigrations (fun _ _ => false) [("x", Migration.mk "001" "UP" "DOWN")]
        (RunnerState.mk [] [])).2 = some ("x", "001")) :=
  ⟨((mm_C3_amended "refused" execOkT "SELECT 1" [] (DBConn.mk none)
      (Except.ok ()) "er").1).1,
   (mm_C3_amended "refused" execOkT "SELECT 1" [] (DBConn.mk none)
      (Except.ok ()) "er").2.1 rfl,
   (mm_C3_amended "refused" execOkT "SELECT 1" [] (DBConn.mk none)
      (Except.ok ()) "er").2.2.2 "x" (Migration.mk "001" "UP" "DOWN") []
      (RunnerState.mk [] []) (fun _ _ => false) (by decide) rfl⟩

end ModMono
